import Mathlib

/-!
Shallow embedding of the streaming chat client in `src/chat.jsx`: the frame
splitter (read-loop buffer split on newlines), the conversation reducer
(the `switch` over decoded event types inside `sendMessage`), the exchange
setup performed by `sendMessage` before the request, the transport-error
`catch` handler and the `finally` block, and the submission guard.
-/

namespace Chat

/-- Role of a transcript message (`role: "user" | "assistant"` in the source). -/
inductive Role where
  | user
  | assistant
deriving DecidableEq

/-- A transcript message, as built in `chat.jsx` (`{ id, role, content, time }`). -/
structure Message where
  id : Nat
  role : Role
  content : String
  time : String
deriving DecidableEq

/-- Status of a tool call (`status: "calling" | "completed"` in the source). -/
inductive ToolStatus where
  | calling
  | completed
deriving DecidableEq

/-- A tool-call record, as built in the `TOOL_CALL_START` case of `chat.jsx`. -/
structure ToolCall where
  id : String
  name : String
  args : String
  result : String
  status : ToolStatus
  expanded : Bool
deriving DecidableEq

/-- Decoded protocol events: one constructor per `case` of the `switch` on
`event.type` in `chat.jsx` (lines 126-219), each carrying the payload fields
that case reads, plus `unknownEvent` for the `default` branch. -/
inductive Event where
  | runStarted
  | textMessageStart
  | textMessageContent (delta : String)
  | textMessageEnd
  | toolCallStart (toolCallId toolCallName : String)
  | toolCallArgs (toolCallId delta : String)
  | toolCallResult (toolCallId content : String)
  | runFinished
  | runError (message : String)
  | unknownEvent (ty : String)
deriving DecidableEq

/-- State of one streaming exchange inside `sendMessage`: the React state
(`messages`, `toolCalls`, `currentStatus`, `isLoading`) together with the
closure-captured draft `assistantMsg` and the `messageAdded` flag.  The
fields `now`/`timeStr` model `Date.now()` and `toLocaleTimeString()` as an
opaque clock sampled at the start of the exchange. -/
structure ExchangeState where
  messages : List Message
  toolCalls : List ToolCall
  currentStatus : String
  isLoading : Bool
  assistantMsg : Message
  messageAdded : Bool
  now : Nat
  timeStr : String
deriving DecidableEq

/-- The `setMessages` update of the `TEXT_MESSAGE_CONTENT` case: copy the
list and overwrite the last entry with the draft, but only when the list is
nonempty and its last entry has role `assistant` (lines 141-148). -/
def setLastIfAssistant (msgs : List Message) (m : Message) : List Message :=
  match msgs.getLast? with
  | some lastMsg => if lastMsg.role = Role.assistant then msgs.dropLast ++ [m] else msgs
  | none => msgs

/-- One step of the conversation reducer: the `switch (event.type)` of
`chat.jsx` lines 126-219, applied to the exchange state. -/
def applyEvent (s : ExchangeState) (e : Event) : ExchangeState :=
  match e with
  | .runStarted => { s with currentStatus := "processing..." }
  | .textMessageStart =>
      if s.messageAdded then { s with currentStatus := "typing..." }
      else { s with currentStatus := "typing..."
                    messages := s.messages ++ [s.assistantMsg]
                    messageAdded := true }
  | .textMessageContent d =>
      let am := { s.assistantMsg with content := s.assistantMsg.content ++ d }
      { s with assistantMsg := am
               messages := setLastIfAssistant s.messages am }
  | .textMessageEnd => { s with currentStatus := "online" }
  | .toolCallStart tid tname =>
      { s with
        currentStatus := "calling " ++ tname ++ "..."
        toolCalls :=
          if (s.toolCalls.find? (fun tc => tc.id == tid)).isSome then
            s.toolCalls.map (fun tc =>
              if tc.id = tid then { tc with args := "", status := ToolStatus.calling } else tc)
          else
            s.toolCalls ++ [{ id := tid, name := tname, args := "", result := ""
                              status := ToolStatus.calling, expanded := false }] }
  | .toolCallArgs tid d =>
      { s with toolCalls := s.toolCalls.map (fun tc =>
          if tc.id = tid then { tc with args := tc.args ++ d } else tc) }
  | .toolCallResult tid c =>
      { s with
        currentStatus := "processing results..."
        toolCalls := s.toolCalls.map (fun tc =>
          if tc.id = tid then { tc with result := c, status := ToolStatus.completed } else tc) }
  | .runFinished => { s with currentStatus := "online", isLoading := false }
  | .runError m =>
      if s.messageAdded then { s with currentStatus := "error", isLoading := false }
      else { s with currentStatus := "error", isLoading := false
                    messages := s.messages ++
                      [{ id := s.now + 2, role := Role.assistant
                         content := "Error: " ++ m, time := s.timeStr }] }
  | .unknownEvent _ => s

/-- Fold of the reducer over a list of decoded events, in arrival order. -/
def applyEvents (s : ExchangeState) (es : List Event) : ExchangeState :=
  es.foldl applyEvent s

/-- The state of an exchange right after the synchronous part of
`sendMessage` (lines 65-108) ran: user message appended, tool calls
cleared, status `"thinking..."`, loading flag set, blank assistant draft
created, `messageAdded = false`, empty stream buffer. -/
def startExchange (prev : List Message) (prompt : String) (now : Nat) (t : String) :
    ExchangeState :=
  { messages := prev ++ [{ id := now, role := Role.user, content := prompt, time := t }]
    toolCalls := []
    currentStatus := "thinking..."
    isLoading := true
    assistantMsg := { id := now + 1, role := Role.assistant, content := "", time := t }
    messageAdded := false
    now := now
    timeStr := t }

/-- The `catch` block of `sendMessage` (lines 226-237): on any transport
failure, append the generic failure message and set status to `"error"`. -/
def handleTransportError (s : ExchangeState) : ExchangeState :=
  { s with
    messages := s.messages ++
      [{ id := s.now + 2, role := Role.assistant
         content := "Sorry, an error occurred. Please try again.", time := s.timeStr }]
    currentStatus := "error" }

/-- The `finally` block of `sendMessage` (lines 238-241). -/
def finallyBlock (s : ExchangeState) : ExchangeState :=
  { s with isLoading := false, currentStatus := "online" }

/-- Component state visible at the submission boundary of `sendMessage`. -/
structure ChatState where
  messages : List Message
  input : String
  isLoading : Bool
  currentStatus : String
  toolCalls : List ToolCall
deriving DecidableEq

/-- Model of JavaScript `String.prototype.trim` on the character list:
strip leading and trailing whitespace (Lean's `String.trim` computes the
same characters but does not reduce in the kernel, so the char-list version
is used). -/
def trimString (s : String) : String :=
  ⟨((s.data.dropWhile Char.isWhitespace).reverse.dropWhile Char.isWhitespace).reverse⟩

/-- The synchronous entry of `sendMessage` (lines 62-79): the guard
`if (!input.trim() || isLoading) return;` followed by appending the user
message, clearing the input and tool calls, and setting status/loading.
Returns the new component state and `some prompt` when a request is issued,
`none` when the call is a no-op. -/
def sendMessage (s : ChatState) (now : Nat) (t : String) : ChatState × Option String :=
  if trimString s.input = "" ∨ s.isLoading = true then (s, none)
  else
    let prompt := trimString s.input
    ({ messages := s.messages ++ [{ id := now, role := Role.user, content := prompt, time := t }]
       input := ""
       isLoading := true
       currentStatus := "thinking..."
       toolCalls := [] },
     some prompt)

/-- Model of JavaScript `buffer.split("\n")` on character lists: returns the
newline-separated parts, always at least one (possibly empty) part. -/
def splitLines : List Char → List (List Char)
  | [] => [[]]
  | c :: cs =>
      let ps := splitLines cs
      if c = '\n' then [] :: ps
      else (c :: ps.headD []) :: ps.tail

/-- One iteration of the read loop's buffer handling (lines 114-117):
`buffer += chunk; parts = buffer.split("\n"); buffer = parts.pop() || ""`.
Returns the complete frames yielded by this chunk and the new buffer. -/
def splitChunk (buffer chunk : List Char) : List (List Char) × List Char :=
  let parts := splitLines (buffer ++ chunk)
  (parts.dropLast, parts.getLastD [])

/-- The whole read loop's frame splitting over a list of decoded text
chunks: frames yielded in arrival order, plus the final pending buffer,
which the `done` branch (line 112) discards without a flush. -/
def feedChunks (buffer : List Char) : List (List Char) → List (List Char) × List Char
  | [] => ([], buffer)
  | c :: cs =>
      let r1 := splitChunk buffer c
      let r2 := feedChunks r1.2 cs
      (r1.1 ++ r2.1, r2.2)

/-- Concatenation of a list of strings, in order. -/
def concatStrings : List String → String
  | [] => ""
  | a :: rest => a ++ concatStrings rest

/-- Whether an event is a `TEXT_MESSAGE_CONTENT` delta. -/
def Event.isContentDelta : Event → Bool
  | .textMessageContent _ => true
  | _ => false

/-- The deltas of the `TEXT_MESSAGE_CONTENT` events of a list, in order. -/
def contentDeltas (es : List Event) : List String :=
  es.filterMap fun e =>
    match e with
    | .textMessageContent d => some d
    | _ => none

/-- Character-level reformulation of the splitter used in proofs: feeding
one character either closes the pending line as a frame or extends it. -/
def charStep (acc : List (List Char) × List Char) (c : Char) :
    List (List Char) × List Char :=
  if c = '\n' then (acc.1 ++ [acc.2], []) else (acc.1, acc.2 ++ [c])

/-- A sample mid-exchange state with two completed/in-flight tool calls,
used to instantiate witnesses on concrete inputs. -/
def sampleExchange : ExchangeState :=
  { messages := [{ id := 0, role := Role.user, content := "hi", time := "" }]
    toolCalls := [{ id := "1", name := "search", args := "a", result := "r"
                    status := ToolStatus.completed, expanded := false },
                  { id := "2", name := "fetch", args := "", result := ""
                    status := ToolStatus.calling, expanded := false }]
    currentStatus := "online"
    isLoading := true
    assistantMsg := { id := 1, role := Role.assistant, content := "", time := "" }
    messageAdded := false
    now := 0
    timeStr := "" }

/-- Interleaved args deltas addressed to the two sample tool calls. -/
def samplePairs : List (String × String) := [("1", "x"), ("2", "y"), ("1", "z")]

/-! Basic lemmas about the reducer fold. -/

theorem applyEvents_nil (s : ExchangeState) : applyEvents s [] = s := rfl

theorem applyEvents_cons (s : ExchangeState) (e : Event) (es : List Event) :
    applyEvents s (e :: es) = applyEvents (applyEvent s e) es := rfl

theorem applyEvents_append (s : ExchangeState) (es1 es2 : List Event) :
    applyEvents s (es1 ++ es2) = applyEvents (applyEvents s es1) es2 :=
  List.foldl_append ..

theorem applyEvent_clock (s : ExchangeState) (e : Event) :
    (applyEvent s e).now = s.now ∧ (applyEvent s e).timeStr = s.timeStr := by
  cases e <;> simp only [applyEvent] <;> (try split) <;> simp

theorem applyEvents_clock (es : List Event) (s : ExchangeState) :
    (applyEvents s es).now = s.now ∧ (applyEvents s es).timeStr = s.timeStr := by
  induction es generalizing s with
  | nil => exact ⟨rfl, rfl⟩
  | cons e es ih =>
      rw [applyEvents_cons]
      rcases ih (applyEvent s e) with ⟨h1, h2⟩
      rcases applyEvent_clock s e with ⟨h3, h4⟩
      exact ⟨h1.trans h3, h2.trans h4⟩

theorem messageAdded_of_other (s : ExchangeState) (e : Event)
    (h : e ≠ Event.textMessageStart) :
    (applyEvent s e).messageAdded = s.messageAdded := by
  cases e <;> simp only [applyEvent] <;> (try split) <;> first | exact absurd rfl h | simp

theorem messageAdded_stays_false (es : List Event) (s : ExchangeState)
    (h : Event.textMessageStart ∉ es) (h0 : s.messageAdded = false) :
    (applyEvents s es).messageAdded = false := by
  induction es generalizing s with
  | nil => exact h0
  | cons e es ih =>
      rw [applyEvents_cons]
      have hne : e ≠ Event.textMessageStart := fun he => h (he ▸ List.mem_cons_self e es)
      exact ih (applyEvent s e) (fun hm => h (List.mem_cons_of_mem e hm))
        ((messageAdded_of_other s e hne).trans h0)

theorem messageAdded_mono (s : ExchangeState) (e : Event)
    (h : s.messageAdded = true) : (applyEvent s e).messageAdded = true := by
  cases e <;> simp only [applyEvent] <;> (try split) <;> simp [h]

theorem messageAdded_mono_list (es : List Event) (s : ExchangeState)
    (h : s.messageAdded = true) : (applyEvents s es).messageAdded = true := by
  induction es generalizing s with
  | nil => exact h
  | cons e es ih => exact applyEvents_cons s e es ▸ ih _ (messageAdded_mono s e h)

theorem startExchange_messageAdded (prev : List Message) (prompt : String)
    (now : Nat) (t : String) : (startExchange prev prompt now t).messageAdded = false := rfl

/-- Claim C8: if the input is empty or whitespace-only after trimming, or an
exchange is already in progress (`isLoading`), `sendMessage` is a no-op:
the state is unchanged and no request is issued. -/
theorem send_message_guard_noop (s : ChatState) (now : Nat) (t : String)
    (h : trimString s.input = "" ∨ s.isLoading = true) :
    sendMessage s now t = (s, none) := by
  unfold sendMessage
  rw [if_pos h]

/-- Witness for C8 at a whitespace-only input with `isLoading = false`. -/
theorem send_message_guard_noop_witness :
    (trimString "  " = "" ∨ (false : Bool) = true) ∧
      sendMessage
          { messages := [], input := "  ", isLoading := false
            currentStatus := "online", toolCalls := [] } 5 "t" =
        ({ messages := [], input := "  ", isLoading := false
           currentStatus := "online", toolCalls := [] }, none) :=
  ⟨Or.inl (by decide),
   send_message_guard_noop
     { messages := [], input := "  ", isLoading := false
       currentStatus := "online", toolCalls := [] } 5 "t" (Or.inl (by decide))⟩

/-- Claim C2 counterexample: after `TEXT_MESSAGE_START` and a content delta the
exchange has nonempty assistant content in the transcript, yet the `catch`
handler still appends the generic failure message — refuting "appended
if and only if no assistant content exists yet". -/
theorem transport_error_cex :
    (∃ m ∈ (applyEvents (startExchange [] "q" 0 "")
        [Event.textMessageStart, Event.textMessageContent "Hi"]).messages,
        m.role = Role.assistant ∧ m.content ≠ "") ∧
      (handleTransportError (applyEvents (startExchange [] "q" 0 "")
          [Event.textMessageStart, Event.textMessageContent "Hi"])).messages.length =
        (applyEvents (startExchange [] "q" 0 "")
          [Event.textMessageStart, Event.textMessageContent "Hi"]).messages.length + 1 := by
  decide

/-- Claim C2 (amended): on a transport-level failure the `catch` block appends
the generic failure message unconditionally — whether or not assistant
content already exists — and sets status to `"error"`; the `finally` block
then restores status `"online"` and clears the loading flag. -/
theorem transport_error_unconditional_append (s : ExchangeState) :
    (handleTransportError s).messages =
        s.messages ++
          [{ id := s.now + 2, role := Role.assistant
             content := "Sorry, an error occurred. Please try again.", time := s.timeStr }] ∧
      (handleTransportError s).currentStatus = "error" ∧
      (finallyBlock (handleTransportError s)).isLoading = false ∧
      (finallyBlock (handleTransportError s)).currentStatus = "online" :=
  ⟨rfl, rfl, rfl, rfl⟩

/-- Claim C4: a `RUN_ERROR` event with no prior `TEXT_MESSAGE_START` in the
exchange appends exactly one assistant message carrying the error text
(`"Error: " ++ message`) and sets status to `"error"`; a `RUN_ERROR` at any
point after a `TEXT_MESSAGE_START` appends no additional message. -/
theorem run_error_synthetic_message (prev : List Message) (prompt : String)
    (now : Nat) (t : String) (es es2 : List Event) (m : String)
    (h : Event.textMessageStart ∉ es) :
    ((applyEvent (applyEvents (startExchange prev prompt now t) es)
          (Event.runError m)).messages =
        (applyEvents (startExchange prev prompt now t) es).messages ++
          [{ id := now + 2, role := Role.assistant
             content := "Error: " ++ m, time := t }] ∧
      (applyEvent (applyEvents (startExchange prev prompt now t) es)
          (Event.runError m)).currentStatus = "error") ∧
    ((applyEvent (applyEvents (startExchange prev prompt now t)
            (es ++ Event.textMessageStart :: es2)) (Event.runError m)).messages =
        (applyEvents (startExchange prev prompt now t)
          (es ++ Event.textMessageStart :: es2)).messages ∧
      (applyEvent (applyEvents (startExchange prev prompt now t)
            (es ++ Event.textMessageStart :: es2)) (Event.runError m)).currentStatus =
        "error") := by
  constructor
  · have hadd : (applyEvents (startExchange prev prompt now t) es).messageAdded = false :=
      messageAdded_stays_false es _ h rfl
    have hclock := applyEvents_clock es (startExchange prev prompt now t)
    constructor
    · simp only [applyEvent, hadd, Bool.false_eq_true, if_false]
      rw [hclock.1, hclock.2]
      rfl
    · simp only [applyEvent, hadd, Bool.false_eq_true, if_false]
  · have hadd : (applyEvents (startExchange prev prompt now t)
        (es ++ Event.textMessageStart :: es2)).messageAdded = true := by
      rw [applyEvents_append, applyEvents_cons]
      refine messageAdded_mono_list es2 _ ?_
      by_cases hb : (applyEvents (startExchange prev prompt now t) es).messageAdded = true
      · exact messageAdded_mono _ _ hb
      · simp only [applyEvent, Bool.not_eq_true] at hb ⊢
        rw [hb]
        simp
    constructor
    · simp only [applyEvent, hadd, if_true]
    · simp only [applyEvent, hadd, if_true]

/-- Witness for C4 at a concrete exchange with a `RUN_STARTED` before the
error, and a second run with a `TEXT_MESSAGE_START` before the error. -/
theorem run_error_synthetic_message_witness :
    Event.textMessageStart ∉ [Event.runStarted] ∧
      (((applyEvent (applyEvents (startExchange [] "p" 0 "z") [Event.runStarted])
            (Event.runError "boom")).messages =
          (applyEvents (startExchange [] "p" 0 "z") [Event.runStarted]).messages ++
            [{ id := 0 + 2, role := Role.assistant
               content := "Error: " ++ "boom", time := "z" }] ∧
        (applyEvent (applyEvents (startExchange [] "p" 0 "z") [Event.runStarted])
            (Event.runError "boom")).currentStatus = "error") ∧
      ((applyEvent (applyEvents (startExchange [] "p" 0 "z")
              ([Event.runStarted] ++ Event.textMessageStart :: []))
            (Event.runError "boom")).messages =
          (applyEvents (startExchange [] "p" 0 "z")
            ([Event.runStarted] ++ Event.textMessageStart :: [])).messages ∧
        (applyEvent (applyEvents (startExchange [] "p" 0 "z")
              ([Event.runStarted] ++ Event.textMessageStart :: []))
            (Event.runError "boom")).currentStatus = "error")) :=
  ⟨by decide,
   run_error_synthetic_message [] "p" 0 "z" [Event.runStarted] [] "boom" (by decide)⟩

/-- Claim C3 counterexample: at the start of an exchange (transcript ends with the
just-appended user message), a `TEXT_MESSAGE_CONTENT` with no preceding
`TEXT_MESSAGE_START` leaves the transcript completely unchanged — no
assistant message is created implicitly, so the delta reaches no assistant
message in the transcript. -/
theorem content_without_start_cex :
    (applyEvent (startExchange [] "hi" 0 "") (Event.textMessageContent "X")).messages =
        (startExchange [] "hi" 0 "").messages ∧
      ∀ m ∈ (startExchange [] "hi" 0 "").messages, m.role = Role.user := by
  decide

/-- Claim C3 (amended): a `TEXT_MESSAGE_CONTENT` without a preceding
`TEXT_MESSAGE_START` appends the delta only to the closure-captured draft
message; when the transcript's last message is the user message the
transcript itself is unchanged (no create-on-first-delta), and the
accumulated text reaches the transcript only if a later
`TEXT_MESSAGE_START` appends the draft. -/
theorem content_without_start_amended (s : ExchangeState) (d : String)
    (h1 : s.messageAdded = false)
    (h2 : ∀ m, s.messages.getLast? = some m → m.role = Role.user) :
    (applyEvent s (Event.textMessageContent d)).messages = s.messages ∧
      (applyEvent s (Event.textMessageContent d)).assistantMsg.content =
        s.assistantMsg.content ++ d ∧
      (applyEvents s [Event.textMessageContent d, Event.textMessageStart]).messages =
        s.messages ++ [{ s.assistantMsg with content := s.assistantMsg.content ++ d }] := by
  have hset : setLastIfAssistant s.messages
      { s.assistantMsg with content := s.assistantMsg.content ++ d } = s.messages := by
    cases hg : s.messages.getLast? with
    | none => unfold setLastIfAssistant; rw [hg]
    | some lastMsg =>
        have hrole := h2 lastMsg hg
        unfold setLastIfAssistant
        rw [hg]
        simp [hrole]
  have hmsgs : (applyEvent s (Event.textMessageContent d)).messages = s.messages := hset
  refine ⟨hmsgs, rfl, ?_⟩
  have hrw : applyEvents s [Event.textMessageContent d, Event.textMessageStart] =
      applyEvent (applyEvent s (Event.textMessageContent d)) Event.textMessageStart := rfl
  rw [hrw]
  simp only [applyEvent, h1, Bool.false_eq_true, if_false]
  exact congrArg
    (fun l => l ++ [{ s.assistantMsg with content := s.assistantMsg.content ++ d }]) hset

/-- Witness for C3's amended theorem at the concrete start of an exchange. -/
theorem content_without_start_amended_witness :
    (applyEvent (startExchange [] "hi" 0 "") (Event.textMessageContent "X")).messages =
        (startExchange [] "hi" 0 "").messages ∧
      (applyEvent (startExchange [] "hi" 0 "") (Event.textMessageContent "X")).assistantMsg.content =
        (startExchange [] "hi" 0 "").assistantMsg.content ++ "X" ∧
      (applyEvents (startExchange [] "hi" 0 "")
          [Event.textMessageContent "X", Event.textMessageStart]).messages =
        (startExchange [] "hi" 0 "").messages ++
          [{ (startExchange [] "hi" 0 "").assistantMsg with
             content := (startExchange [] "hi" 0 "").assistantMsg.content ++ "X" }] :=
  content_without_start_amended (startExchange [] "hi" 0 "") "X" rfl (by decide)

/-! Lemmas about the tool-call registry. -/

theorem toolCalls_args_step (s : ExchangeState) (tid d : String) :
    (applyEvent s (Event.toolCallArgs tid d)).toolCalls =
      s.toolCalls.map (fun tc =>
        if tc.id = tid then { tc with args := tc.args ++ d } else tc) := rfl

theorem toolCallStart_exists_step (s : ExchangeState) (tid nm : String)
    (h : (s.toolCalls.find? (fun tc => tc.id == tid)).isSome = true) :
    (applyEvent s (Event.toolCallStart tid nm)).toolCalls =
      s.toolCalls.map (fun tc =>
        if tc.id = tid then { tc with args := "", status := ToolStatus.calling } else tc) := by
  simp only [applyEvent, h, if_true]

theorem toolCallStart_new_step (s : ExchangeState) (tid nm : String)
    (h : (s.toolCalls.find? (fun tc => tc.id == tid)).isSome = false) :
    (applyEvent s (Event.toolCallStart tid nm)).toolCalls =
      s.toolCalls ++ [{ id := tid, name := nm, args := "", result := ""
                        status := ToolStatus.calling, expanded := false }] := by
  simp only [applyEvent, h, Bool.false_eq_true, if_false]

theorem find?_isSome_false_forall (l : List ToolCall) (tid : String)
    (h : (l.find? (fun tc => tc.id == tid)).isSome = false) :
    ∀ tc ∈ l, tc.id ≠ tid := by
  have hnone : l.find? (fun tc => tc.id == tid) = none := by
    cases hfind : l.find? (fun tc => tc.id == tid) with
    | none => rfl
    | some v => rw [hfind] at h; simp at h
  intro tc htc heq
  have := List.find?_eq_none.mp hnone tc htc
  simp [heq] at this

/-- Claim C10: on a `TOOL_CALL_START` whose id already exists in the registry,
every record keeps its `id`, `name`, `result` and `expanded` fields; the
records matching the id get `args` reset to `""` and `status` reset to
`calling`, the others are completely unchanged, and no entry is added. -/
theorem tool_call_restart_preserves_fields (s : ExchangeState) (tid nm : String)
    (h : (s.toolCalls.find? (fun tc => tc.id == tid)).isSome = true) :
    (applyEvent s (Event.toolCallStart tid nm)).toolCalls.length = s.toolCalls.length ∧
    ∀ i (hi : i < s.toolCalls.length),
      ∃ hi2 : i < (applyEvent s (Event.toolCallStart tid nm)).toolCalls.length,
        ((applyEvent s (Event.toolCallStart tid nm)).toolCalls.get ⟨i, hi2⟩).id =
            (s.toolCalls.get ⟨i, hi⟩).id ∧
        ((applyEvent s (Event.toolCallStart tid nm)).toolCalls.get ⟨i, hi2⟩).name =
            (s.toolCalls.get ⟨i, hi⟩).name ∧
        ((applyEvent s (Event.toolCallStart tid nm)).toolCalls.get ⟨i, hi2⟩).result =
            (s.toolCalls.get ⟨i, hi⟩).result ∧
        ((applyEvent s (Event.toolCallStart tid nm)).toolCalls.get ⟨i, hi2⟩).expanded =
            (s.toolCalls.get ⟨i, hi⟩).expanded ∧
        ((s.toolCalls.get ⟨i, hi⟩).id = tid →
          ((applyEvent s (Event.toolCallStart tid nm)).toolCalls.get ⟨i, hi2⟩).args = "" ∧
          ((applyEvent s (Event.toolCallStart tid nm)).toolCalls.get ⟨i, hi2⟩).status =
            ToolStatus.calling) ∧
        ((s.toolCalls.get ⟨i, hi⟩).id ≠ tid →
          (applyEvent s (Event.toolCallStart tid nm)).toolCalls.get ⟨i, hi2⟩ =
            s.toolCalls.get ⟨i, hi⟩) := by
  have htc := toolCallStart_exists_step s tid nm h
  constructor
  · rw [htc, List.length_map]
  · intro i hi
    have hi2 : i < (applyEvent s (Event.toolCallStart tid nm)).toolCalls.length := by
      rw [htc, List.length_map]
      exact hi
    refine ⟨hi2, ?_⟩
    have hget : (applyEvent s (Event.toolCallStart tid nm)).toolCalls.get ⟨i, hi2⟩ =
        (if (s.toolCalls.get ⟨i, hi⟩).id = tid then
          { s.toolCalls.get ⟨i, hi⟩ with args := "", status := ToolStatus.calling }
         else s.toolCalls.get ⟨i, hi⟩) := by
      simp only [List.get_eq_getElem, htc, List.getElem_map]
    by_cases hid : (s.toolCalls.get ⟨i, hi⟩).id = tid
    · rw [hget, if_pos hid]
      exact ⟨rfl, rfl, rfl, rfl, fun _ => ⟨rfl, rfl⟩, fun hc => absurd hid hc⟩
    · rw [hget, if_neg hid]
      exact ⟨rfl, rfl, rfl, rfl, fun hc => absurd hc hid, fun _ => rfl⟩

/-- Witness for C10: restarting tool call `"1"` with a different name keeps
the old name `"search"` and the old result `"r"` while resetting args and
status. -/
theorem tool_call_restart_preserves_fields_witness :
    (applyEvent sampleExchange (Event.toolCallStart "1" "other")).toolCalls.length =
        sampleExchange.toolCalls.length ∧
      ((applyEvent sampleExchange (Event.toolCallStart "1" "other")).toolCalls.get
          ⟨0, by decide⟩).name = "search" ∧
      ((applyEvent sampleExchange (Event.toolCallStart "1" "other")).toolCalls.get
          ⟨0, by decide⟩).result = "r" ∧
      ((applyEvent sampleExchange (Event.toolCallStart "1" "other")).toolCalls.get
          ⟨0, by decide⟩).args = "" ∧
      ((applyEvent sampleExchange (Event.toolCallStart "1" "other")).toolCalls.get
          ⟨0, by decide⟩).status = ToolStatus.calling := by
  have h := tool_call_restart_preserves_fields sampleExchange "1" "other" (by decide)
  rcases h.2 0 (by decide) with ⟨hi2, hid, hname, hres, hexp, hmatch, hmiss⟩
  rcases hmatch (by decide) with ⟨hargs, hstat⟩
  exact ⟨h.1, by rw [hname]; rfl, by rw [hres]; rfl, hargs, hstat⟩

theorem toolCalls_result_step (s : ExchangeState) (tid c : String) :
    (applyEvent s (Event.toolCallResult tid c)).toolCalls =
      s.toolCalls.map (fun tc => if tc.id = tid then
        { tc with result := c, status := ToolStatus.completed } else tc) := rfl

theorem args_accum_list (ps : List (String × String)) (s : ExchangeState) :
    (applyEvents s (ps.map fun p => Event.toolCallArgs p.1 p.2)).toolCalls =
      s.toolCalls.map (fun tc =>
        { tc with args := tc.args ++ concatStrings (ps.filterMap fun p =>
            if p.1 = tc.id then some p.2 else none) }) := by
  induction ps generalizing s with
  | nil =>
      symm
      refine (List.map_congr_left ?_).trans (List.map_id _)
      intro tc _
      show { tc with args := tc.args ++ "" } = tc
      rw [String.append_empty]
  | cons p ps ih =>
      have hstep : applyEvents s ((p :: ps).map fun q => Event.toolCallArgs q.1 q.2) =
          applyEvents (applyEvent s (Event.toolCallArgs p.1 p.2))
            (ps.map fun q => Event.toolCallArgs q.1 q.2) := rfl
      rw [hstep, ih, toolCalls_args_step, List.map_map]
      refine List.map_congr_left ?_
      intro tc _
      by_cases hc : p.1 = tc.id
      · have hg : (if tc.id = p.1 then { tc with args := tc.args ++ p.2 } else tc) =
            { tc with args := tc.args ++ p.2 } := if_pos hc.symm
        have hfm : ((p :: ps).filterMap fun q =>
              if q.1 = tc.id then some q.2 else none) =
            p.2 :: (ps.filterMap fun q => if q.1 = tc.id then some q.2 else none) := by
          rw [List.filterMap_cons]
          rw [if_pos hc]
        simp only [Function.comp, hg, hfm, concatStrings]
        exact congrArg (fun a => { tc with args := a }) (String.append_assoc _ _ _)
      · have hg : (if tc.id = p.1 then { tc with args := tc.args ++ p.2 } else tc) = tc :=
          if_neg (fun hcon => hc hcon.symm)
        have hfm : ((p :: ps).filterMap fun q =>
              if q.1 = tc.id then some q.2 else none) =
            ps.filterMap fun q => if q.1 = tc.id then some q.2 else none := by
          rw [List.filterMap_cons]
          rw [if_neg hc]
        simp only [Function.comp, hg, hfm]

/-- Claim C7: any interleaving of `TOOL_CALL_ARGS` events updates every registry
record by appending exactly the deltas addressed to its own id, in arrival
order, leaving every other field and the registry shape unchanged (so two
distinct ids never cross-contaminate); an args event whose id matches no
record leaves the whole state unchanged. -/
theorem tool_args_no_cross_contamination :
    (∀ (s : ExchangeState) (ps : List (String × String)),
      (applyEvents s (ps.map fun p => Event.toolCallArgs p.1 p.2)).toolCalls =
        s.toolCalls.map (fun tc =>
          { tc with args := tc.args ++ concatStrings (ps.filterMap fun p =>
              if p.1 = tc.id then some p.2 else none) })) ∧
    (∀ (s : ExchangeState) (tid d : String),
      (∀ tc ∈ s.toolCalls, tc.id ≠ tid) →
        applyEvent s (Event.toolCallArgs tid d) = s) := by
  constructor
  · intro s ps
    exact args_accum_list ps s
  · intro s tid d hno
    have hmap : s.toolCalls.map (fun tc =>
        if tc.id = tid then { tc with args := tc.args ++ d } else tc) = s.toolCalls := by
      refine (List.map_congr_left ?_).trans (List.map_id _)
      intro tc htc
      exact if_neg (hno tc htc)
    have hdef : applyEvent s (Event.toolCallArgs tid d) =
        { s with toolCalls := s.toolCalls.map (fun tc =>
            if tc.id = tid then { tc with args := tc.args ++ d } else tc) } := rfl
    rw [hdef, hmap]

/-- Witness for C7: deltas for ids `"1"` and `"2"` interleave without
cross-contamination at a concrete registry, and an unknown id is a no-op. -/
theorem tool_args_no_cross_contamination_witness :
    (applyEvents sampleExchange
        (samplePairs.map fun p => Event.toolCallArgs p.1 p.2)).toolCalls =
      sampleExchange.toolCalls.map (fun tc =>
        { tc with args := tc.args ++ concatStrings (samplePairs.filterMap
            fun p => if p.1 = tc.id then some p.2 else none) }) ∧
    applyEvent sampleExchange (Event.toolCallArgs "9" "q") = sampleExchange :=
  ⟨tool_args_no_cross_contamination.1 sampleExchange _,
   tool_args_no_cross_contamination.2 sampleExchange "9" "q" (by decide)⟩

/-! Uniqueness of tool-call ids. -/

theorem ids_nodup_step (s : ExchangeState) (e : Event)
    (h : (s.toolCalls.map ToolCall.id).Nodup) :
    ((applyEvent s e).toolCalls.map ToolCall.id).Nodup := by
  cases e with
  | toolCallStart tid nm =>
      cases hfind : (s.toolCalls.find? (fun tc => tc.id == tid)).isSome with
      | true =>
          rw [toolCallStart_exists_step s tid nm hfind, List.map_map]
          have hpt : s.toolCalls.map (ToolCall.id ∘ fun tc =>
              if tc.id = tid then { tc with args := "", status := ToolStatus.calling } else tc) =
              s.toolCalls.map ToolCall.id := by
            refine List.map_congr_left ?_
            intro tc _
            by_cases hc : tc.id = tid
            · simp only [Function.comp, if_pos hc]
            · simp only [Function.comp, if_neg hc]
          rw [hpt]
          exact h
      | false =>
          rw [toolCallStart_new_step s tid nm hfind, List.map_append]
          have hnotin : tid ∉ s.toolCalls.map ToolCall.id := by
            intro hmem
            obtain ⟨tc, htc, hid⟩ := List.mem_map.mp hmem
            exact find?_isSome_false_forall s.toolCalls tid hfind tc htc hid
          simp [List.nodup_append, h, hnotin]
  | toolCallArgs tid d =>
      rw [toolCalls_args_step, List.map_map]
      have hpt : s.toolCalls.map (ToolCall.id ∘ fun tc =>
          if tc.id = tid then { tc with args := tc.args ++ d } else tc) =
          s.toolCalls.map ToolCall.id := by
        refine List.map_congr_left ?_
        intro tc _
        by_cases hc : tc.id = tid
        · simp only [Function.comp, if_pos hc]
        · simp only [Function.comp, if_neg hc]
      rw [hpt]
      exact h
  | toolCallResult tid c =>
      rw [toolCalls_result_step, List.map_map]
      have hpt : s.toolCalls.map (ToolCall.id ∘ fun tc =>
          if tc.id = tid then { tc with result := c, status := ToolStatus.completed } else tc) =
          s.toolCalls.map ToolCall.id := by
        refine List.map_congr_left ?_
        intro tc _
        by_cases hc : tc.id = tid
        · simp only [Function.comp, if_pos hc]
        · simp only [Function.comp, if_neg hc]
      rw [hpt]
      exact h
  | runStarted => exact h
  | textMessageStart =>
      have : (applyEvent s Event.textMessageStart).toolCalls = s.toolCalls := by
        simp only [applyEvent]
        split <;> rfl
      rw [this]
      exact h
  | textMessageContent d => exact h
  | textMessageEnd => exact h
  | runFinished => exact h
  | runError m =>
      have : (applyEvent s (Event.runError m)).toolCalls = s.toolCalls := by
        simp only [applyEvent]
        split <;> rfl
      rw [this]
      exact h
  | unknownEvent ty => exact h

theorem ids_nodup_fold (es : List Event) (s : ExchangeState)
    (h : (s.toolCalls.map ToolCall.id).Nodup) :
    ((applyEvents s es).toolCalls.map ToolCall.id).Nodup := by
  induction es generalizing s with
  | nil => exact h
  | cons e es ih => exact applyEvents_cons s e es ▸ ih _ (ids_nodup_step s e h)

/-- Claim C6: starting from a fresh exchange the tool-call registry never holds
two records with the same id under any event sequence; a `TOOL_CALL_START`
for an existing id resets that record's `args` and `status` in place (a
map, never an insertion), and one for an absent id appends a single new
record with empty `args`/`result` and status `calling`. -/
theorem tool_registry_unique_ids :
    (∀ (prev : List Message) (prompt : String) (now : Nat) (t : String) (es : List Event),
      ((applyEvents (startExchange prev prompt now t) es).toolCalls.map ToolCall.id).Nodup) ∧
    (∀ (s : ExchangeState) (tid nm : String),
      (s.toolCalls.find? (fun tc => tc.id == tid)).isSome = true →
        (applyEvent s (Event.toolCallStart tid nm)).toolCalls =
          s.toolCalls.map (fun tc => if tc.id = tid then
            { tc with args := "", status := ToolStatus.calling } else tc)) ∧
    (∀ (s : ExchangeState) (tid nm : String),
      (s.toolCalls.find? (fun tc => tc.id == tid)).isSome = false →
        (applyEvent s (Event.toolCallStart tid nm)).toolCalls =
          s.toolCalls ++ [{ id := tid, name := nm, args := "", result := ""
                            status := ToolStatus.calling, expanded := false }]) :=
  ⟨fun prev prompt now t es => ids_nodup_fold es _ (by simp [startExchange]),
   toolCallStart_exists_step,
   toolCallStart_new_step⟩

/-- Witness for C6: duplicate start events for id `"a"` keep the registry
ids unique, restart of `"1"` maps in place, and a fresh id `"3"` appends. -/
theorem tool_registry_unique_ids_witness :
    ((applyEvents (startExchange [] "p" 0 "")
        [Event.toolCallStart "a" "f", Event.toolCallStart "a" "g",
         Event.toolCallStart "b" "h"]).toolCalls.map ToolCall.id).Nodup ∧
      (applyEvent sampleExchange (Event.toolCallStart "1" "other")).toolCalls =
        sampleExchange.toolCalls.map (fun tc => if tc.id = "1" then
          { tc with args := "", status := ToolStatus.calling } else tc) ∧
      (applyEvent sampleExchange (Event.toolCallStart "3" "new")).toolCalls =
        sampleExchange.toolCalls ++ [{ id := "3", name := "new", args := "", result := ""
                                       status := ToolStatus.calling, expanded := false }] :=
  ⟨tool_registry_unique_ids.1 [] "p" 0 "" _,
   tool_registry_unique_ids.2.1 sampleExchange "1" "other" (by decide),
   tool_registry_unique_ids.2.2 sampleExchange "3" "new" (by decide)⟩

/-! Accumulation of content deltas into the active assistant message. -/

theorem contentDeltas_cons_of_other (e : Event) (es : List Event)
    (hne : ∀ d, e ≠ Event.textMessageContent d) :
    contentDeltas (e :: es) = contentDeltas es := by
  cases e <;> first | rfl | exact absurd rfl (hne _)

theorem setLastIfAssistant_concat (base : List Message) (a m : Message)
    (hrole : a.role = Role.assistant) :
    setLastIfAssistant (base ++ [a]) m = base ++ [m] := by
  unfold setLastIfAssistant
  rw [List.getLast?_concat]
  simp [hrole, List.dropLast_concat]

theorem non_content_step (s : ExchangeState) (e : Event)
    (hadd : s.messageAdded = true)
    (hne : ∀ d, e ≠ Event.textMessageContent d) :
    (applyEvent s e).messages = s.messages ∧
      (applyEvent s e).assistantMsg = s.assistantMsg := by
  cases e with
  | textMessageContent d => exact absurd rfl (hne d)
  | textMessageStart =>
      have h1 : applyEvent s Event.textMessageStart =
          { s with currentStatus := "typing..." } := by
        simp [applyEvent, hadd]
      rw [h1]
      exact ⟨rfl, rfl⟩
  | runError m =>
      have h1 : applyEvent s (Event.runError m) =
          { s with currentStatus := "error", isLoading := false } := by
        simp [applyEvent, hadd]
      rw [h1]
      exact ⟨rfl, rfl⟩
  | runStarted => exact ⟨rfl, rfl⟩
  | textMessageEnd => exact ⟨rfl, rfl⟩
  | toolCallStart tid nm => exact ⟨rfl, rfl⟩
  | toolCallArgs tid d => exact ⟨rfl, rfl⟩
  | toolCallResult tid c => exact ⟨rfl, rfl⟩
  | runFinished => exact ⟨rfl, rfl⟩
  | unknownEvent ty => exact ⟨rfl, rfl⟩

theorem content_accum (es : List Event) (s : ExchangeState) (base : List Message)
    (hadd : s.messageAdded = true)
    (hmsgs : s.messages = base ++ [s.assistantMsg])
    (hrole : s.assistantMsg.role = Role.assistant) :
    (applyEvents s es).messageAdded = true ∧
    (applyEvents s es).assistantMsg.role = Role.assistant ∧
    (applyEvents s es).assistantMsg.id = s.assistantMsg.id ∧
    (applyEvents s es).messages = base ++ [(applyEvents s es).assistantMsg] ∧
    (applyEvents s es).assistantMsg.content =
      s.assistantMsg.content ++ concatStrings (contentDeltas es) := by
  induction es generalizing s with
  | nil => exact ⟨hadd, hrole, rfl, hmsgs, (String.append_empty _).symm⟩
  | cons e es ih =>
      rw [applyEvents_cons]
      by_cases hce : ∃ d, e = Event.textMessageContent d
      · obtain ⟨d, rfl⟩ := hce
        have hadd1 : (applyEvent s (Event.textMessageContent d)).messageAdded = true := hadd
        have hrole1 : (applyEvent s (Event.textMessageContent d)).assistantMsg.role =
            Role.assistant := hrole
        have hmsgs1 : (applyEvent s (Event.textMessageContent d)).messages =
            base ++ [(applyEvent s (Event.textMessageContent d)).assistantMsg] := by
          show setLastIfAssistant s.messages _ = _
          rw [hmsgs, setLastIfAssistant_concat base _ _ hrole]
          rfl
        obtain ⟨i1, i2, i3, i4, i5⟩ := ih _ hadd1 hmsgs1 hrole1
        refine ⟨i1, i2, i3, i4, ?_⟩
        rw [i5]
        show (s.assistantMsg.content ++ d) ++ concatStrings (contentDeltas es) = _
        rw [String.append_assoc]
        rfl
      · have hne : ∀ d, e ≠ Event.textMessageContent d := fun d hd => hce ⟨d, hd⟩
        obtain ⟨hm, ha⟩ := non_content_step s e hadd hne
        have hadd1 := messageAdded_mono s e hadd
        have hrole1 : (applyEvent s e).assistantMsg.role = Role.assistant := by
          rw [ha]; exact hrole
        have hmsgs1 : (applyEvent s e).messages =
            base ++ [(applyEvent s e).assistantMsg] := by
          rw [hm, ha]; exact hmsgs
        obtain ⟨i1, i2, i3, i4, i5⟩ := ih _ hadd1 hmsgs1 hrole1
        refine ⟨i1, i2, i3.trans (by rw [ha]), i4, ?_⟩
        rw [i5, ha, contentDeltas_cons_of_other e es hne]

theorem contentDeltas_no_content_append (es0 es : List Event)
    (h0 : ∀ e ∈ es0, ∀ d, e ≠ Event.textMessageContent d) :
    contentDeltas (es0 ++ Event.textMessageStart :: es) = contentDeltas es := by
  induction es0 with
  | nil => rfl
  | cons e es0 ih =>
      have hne := h0 e (List.mem_cons_self e es0)
      have hrest : ∀ e2 ∈ es0, ∀ d, e2 ≠ Event.textMessageContent d :=
        fun e2 he2 => h0 e2 (List.mem_cons_of_mem e he2)
      show contentDeltas (e :: (es0 ++ Event.textMessageStart :: es)) = _
      rw [contentDeltas_cons_of_other e _ hne, ih hrest]

theorem pre_start_step (s : ExchangeState) (e : Event)
    (hne : ∀ d, e ≠ Event.textMessageContent d)
    (hinv : s.messageAdded = true → ∃ b, s.messages = b ++ [s.assistantMsg]) :
    (applyEvent s e).assistantMsg = s.assistantMsg ∧
      ((applyEvent s e).messageAdded = true →
        ∃ b, (applyEvent s e).messages = b ++ [(applyEvent s e).assistantMsg]) := by
  cases e with
  | textMessageContent d => exact absurd rfl (hne d)
  | textMessageStart =>
      by_cases hadd : s.messageAdded = true
      · have h1 : applyEvent s Event.textMessageStart =
            { s with currentStatus := "typing..." } := by
          simp [applyEvent, hadd]
        rw [h1]
        exact ⟨rfl, hinv⟩
      · have h0 : s.messageAdded = false := Bool.not_eq_true s.messageAdded ▸ hadd
        have h1 : applyEvent s Event.textMessageStart =
            { s with currentStatus := "typing..."
                     messages := s.messages ++ [s.assistantMsg]
                     messageAdded := true } := by
          simp [applyEvent, h0]
        rw [h1]
        exact ⟨rfl, fun _ => ⟨s.messages, rfl⟩⟩
  | runError m =>
      by_cases hadd : s.messageAdded = true
      · have h1 : applyEvent s (Event.runError m) =
            { s with currentStatus := "error", isLoading := false } := by
          simp [applyEvent, hadd]
        rw [h1]
        exact ⟨rfl, hinv⟩
      · have h0 : s.messageAdded = false := Bool.not_eq_true s.messageAdded ▸ hadd
        have h1 : applyEvent s (Event.runError m) =
            { s with currentStatus := "error", isLoading := false
                     messages := s.messages ++
                       [{ id := s.now + 2, role := Role.assistant
                          content := "Error: " ++ m, time := s.timeStr }] } := by
          simp [applyEvent, h0]
        rw [h1]
        exact ⟨rfl, fun ht => absurd ht hadd⟩
  | runStarted => exact ⟨rfl, hinv⟩
  | textMessageEnd => exact ⟨rfl, hinv⟩
  | toolCallStart tid nm => exact ⟨rfl, hinv⟩
  | toolCallArgs tid d => exact ⟨rfl, hinv⟩
  | toolCallResult tid c => exact ⟨rfl, hinv⟩
  | runFinished => exact ⟨rfl, hinv⟩
  | unknownEvent ty => exact ⟨rfl, hinv⟩

theorem pre_start_inv (es0 : List Event) (s : ExchangeState)
    (h0 : ∀ e ∈ es0, ∀ d, e ≠ Event.textMessageContent d)
    (hinv : s.messageAdded = true → ∃ b, s.messages = b ++ [s.assistantMsg]) :
    (applyEvents s es0).assistantMsg = s.assistantMsg ∧
      ((applyEvents s es0).messageAdded = true →
        ∃ b, (applyEvents s es0).messages =
          b ++ [(applyEvents s es0).assistantMsg]) := by
  induction es0 generalizing s with
  | nil => exact ⟨rfl, hinv⟩
  | cons e es0 ih =>
      rw [applyEvents_cons]
      have hne := h0 e (List.mem_cons_self e es0)
      have hrest : ∀ e2 ∈ es0, ∀ d, e2 ≠ Event.textMessageContent d :=
        fun e2 he2 => h0 e2 (List.mem_cons_of_mem e he2)
      obtain ⟨ha, hi⟩ := pre_start_step s e hne hinv
      obtain ⟨ja, ji⟩ := ih _ hrest hi
      exact ⟨ja.trans ha, ji⟩

/-- Claim C1: in an exchange whose events consist of arbitrary non-content events,
then a `TEXT_MESSAGE_START`, then arbitrary further events whose content
deltas are d1..dN in arrival order, the transcript ends with the exchange's
assistant message (the draft created at the start of the exchange, id
`now + 1`) and its content is exactly the concatenation of the deltas. -/
theorem assistant_content_is_delta_concat (prev : List Message) (prompt : String)
    (now : Nat) (t : String) (es0 es : List Event)
    (hc0 : ∀ e ∈ es0, e.isContentDelta = false) :
    (applyEvents (startExchange prev prompt now t)
        (es0 ++ Event.textMessageStart :: es)).messages.getLast? =
      some (applyEvents (startExchange prev prompt now t)
        (es0 ++ Event.textMessageStart :: es)).assistantMsg ∧
    (applyEvents (startExchange prev prompt now t)
        (es0 ++ Event.textMessageStart :: es)).assistantMsg.id = now + 1 ∧
    (applyEvents (startExchange prev prompt now t)
        (es0 ++ Event.textMessageStart :: es)).assistantMsg.role = Role.assistant ∧
    (applyEvents (startExchange prev prompt now t)
        (es0 ++ Event.textMessageStart :: es)).assistantMsg.content =
      concatStrings (contentDeltas (es0 ++ Event.textMessageStart :: es)) := by
  have h0 : ∀ e ∈ es0, ∀ d, e ≠ Event.textMessageContent d := by
    intro e he d hd
    have := hc0 e he
    rw [hd] at this
    simp [Event.isContentDelta] at this
  have hsplit : applyEvents (startExchange prev prompt now t)
      (es0 ++ Event.textMessageStart :: es) =
      applyEvents (applyEvent (applyEvents (startExchange prev prompt now t) es0)
        Event.textMessageStart) es := by
    rw [applyEvents_append, applyEvents_cons]
  obtain ⟨hdraft, hinv⟩ := pre_start_inv es0 (startExchange prev prompt now t) h0
    (fun ht => absurd ht (by simp [startExchange]))
  have hrole0 : (applyEvents (startExchange prev prompt now t) es0).assistantMsg.role =
      Role.assistant := by rw [hdraft]; rfl
  have hid0 : (applyEvents (startExchange prev prompt now t) es0).assistantMsg.id =
      now + 1 := by rw [hdraft]; rfl
  have hcontent0 : (applyEvents (startExchange prev prompt now t) es0).assistantMsg.content =
      "" := by rw [hdraft]; rfl
  have hkey : ∃ base,
      (applyEvent (applyEvents (startExchange prev prompt now t) es0)
          Event.textMessageStart).messages =
        base ++ [(applyEvent (applyEvents (startExchange prev prompt now t) es0)
          Event.textMessageStart).assistantMsg] ∧
      (applyEvent (applyEvents (startExchange prev prompt now t) es0)
          Event.textMessageStart).assistantMsg =
        (applyEvents (startExchange prev prompt now t) es0).assistantMsg ∧
      (applyEvent (applyEvents (startExchange prev prompt now t) es0)
          Event.textMessageStart).messageAdded = true := by
    by_cases hadd : (applyEvents (startExchange prev prompt now t) es0).messageAdded = true
    · obtain ⟨b, hb⟩ := hinv hadd
      have h1 : applyEvent (applyEvents (startExchange prev prompt now t) es0)
          Event.textMessageStart =
          { applyEvents (startExchange prev prompt now t) es0 with
            currentStatus := "typing..." } := by
        simp [applyEvent, hadd]
      rw [h1]
      exact ⟨b, hb, rfl, hadd⟩
    · have hf : (applyEvents (startExchange prev prompt now t) es0).messageAdded = false :=
        Bool.not_eq_true _ ▸ hadd
      have h1 : applyEvent (applyEvents (startExchange prev prompt now t) es0)
          Event.textMessageStart =
          { applyEvents (startExchange prev prompt now t) es0 with
            currentStatus := "typing..."
            messages := (applyEvents (startExchange prev prompt now t) es0).messages ++
              [(applyEvents (startExchange prev prompt now t) es0).assistantMsg]
            messageAdded := true } := by
        simp [applyEvent, hf]
      rw [h1]
      exact ⟨(applyEvents (startExchange prev prompt now t) es0).messages, rfl, rfl, rfl⟩
  obtain ⟨base, hbase, hdraft1, hadd1⟩ := hkey
  have hrole1 : (applyEvent (applyEvents (startExchange prev prompt now t) es0)
      Event.textMessageStart).assistantMsg.role = Role.assistant := by
    rw [hdraft1]; exact hrole0
  obtain ⟨f1, f2, f3, f4, f5⟩ := content_accum es _ base hadd1 hbase hrole1
  rw [hsplit]
  refine ⟨?_, ?_, f2, ?_⟩
  · rw [f4, List.getLast?_concat]
  · rw [f3, hdraft1, hid0]
  · rw [f5, hdraft1, hcontent0, contentDeltas_no_content_append es0 es h0]
    rfl

/-- Witness for C1: deltas `"Hi"` and `" there"` interleaved with a tool
call and followed by message end concatenate, after a run-started prefix. -/
theorem assistant_content_is_delta_concat_witness :
    (applyEvents (startExchange [] "p" 0 "")
        ([Event.runStarted] ++ Event.textMessageStart ::
          [Event.textMessageContent "Hi", Event.toolCallStart "1" "f",
           Event.textMessageContent " there", Event.textMessageEnd])).messages.getLast? =
      some (applyEvents (startExchange [] "p" 0 "")
        ([Event.runStarted] ++ Event.textMessageStart ::
          [Event.textMessageContent "Hi", Event.toolCallStart "1" "f",
           Event.textMessageContent " there", Event.textMessageEnd])).assistantMsg ∧
    (applyEvents (startExchange [] "p" 0 "")
        ([Event.runStarted] ++ Event.textMessageStart ::
          [Event.textMessageContent "Hi", Event.toolCallStart "1" "f",
           Event.textMessageContent " there", Event.textMessageEnd])).assistantMsg.id =
      0 + 1 ∧
    (applyEvents (startExchange [] "p" 0 "")
        ([Event.runStarted] ++ Event.textMessageStart ::
          [Event.textMessageContent "Hi", Event.toolCallStart "1" "f",
           Event.textMessageContent " there", Event.textMessageEnd])).assistantMsg.role =
      Role.assistant ∧
    (applyEvents (startExchange [] "p" 0 "")
        ([Event.runStarted] ++ Event.textMessageStart ::
          [Event.textMessageContent "Hi", Event.toolCallStart "1" "f",
           Event.textMessageContent " there", Event.textMessageEnd])).assistantMsg.content =
      concatStrings (contentDeltas ([Event.runStarted] ++ Event.textMessageStart ::
        [Event.textMessageContent "Hi", Event.toolCallStart "1" "f",
         Event.textMessageContent " there", Event.textMessageEnd])) :=
  assistant_content_is_delta_concat [] "p" 0 "" [Event.runStarted]
    [Event.textMessageContent "Hi", Event.toolCallStart "1" "f",
     Event.textMessageContent " there", Event.textMessageEnd] (by decide)

/-! Frame-splitter lemmas: the chunk-level buffer split agrees with a
character-level fold, which makes chunk-boundary independence immediate. -/

theorem splitLines_ne_nil (s : List Char) : splitLines s ≠ [] := by
  cases s with
  | nil => simp [splitLines]
  | cons c cs =>
      simp only [splitLines]
      split <;> simp

theorem splitLines_no_newline_append (b : List Char) (s : List Char)
    (hb : '\n' ∉ b) :
    splitLines (b ++ s) = (b ++ (splitLines s).headD []) :: (splitLines s).tail := by
  induction b with
  | nil =>
      simp only [List.nil_append]
      cases hsp : splitLines s with
      | nil => exact absurd hsp (splitLines_ne_nil s)
      | cons p ps => simp
  | cons c b ih =>
      have hc : c ≠ '\n' := fun h => hb (h ▸ List.mem_cons_self c b)
      have hb2 : '\n' ∉ b := fun h => hb (List.mem_cons_of_mem c h)
      show splitLines (c :: (b ++ s)) = _
      simp only [splitLines]
      rw [if_neg hc, ih hb2]
      simp

theorem foldl_charStep_buffer_no_newline (t : List Char)
    (acc : List (List Char) × List Char) (hb : '\n' ∉ acc.2) :
    '\n' ∉ (List.foldl charStep acc t).2 := by
  induction t generalizing acc with
  | nil => exact hb
  | cons c cs ih =>
      rw [List.foldl_cons]
      apply ih
      by_cases hc : c = '\n'
      · simp [charStep, hc]
      · simp only [charStep, if_neg hc]
        intro hm
        rcases List.mem_append.mp hm with h | h
        · exact hb h
        · simp at h
          exact hc h.symm

theorem foldl_charStep_frames_no_newline (t : List Char)
    (acc : List (List Char) × List Char)
    (hf : ∀ f ∈ acc.1, '\n' ∉ f) (hb : '\n' ∉ acc.2) :
    ∀ f ∈ (List.foldl charStep acc t).1, '\n' ∉ f := by
  induction t generalizing acc with
  | nil => exact hf
  | cons c cs ih =>
      rw [List.foldl_cons]
      by_cases hc : c = '\n'
      · refine ih _ ?_ ?_
        · intro f hfm
          simp only [charStep, hc, if_pos rfl] at hfm
          rcases List.mem_append.mp hfm with h | h
          · exact hf f h
          · simp at h
            rw [h]
            exact hb
        · simp [charStep, hc]
      · refine ih _ ?_ ?_
        · intro f hfm
          simp only [charStep, if_neg hc] at hfm
          exact hf f hfm
        · simp only [charStep, if_neg hc]
          intro hm
          rcases List.mem_append.mp hm with h | h
          · exact hb h
          · simp at h
            exact hc h.symm

theorem foldl_charStep_reconstruct (t : List Char)
    (acc : List (List Char) × List Char) :
    ((List.foldl charStep acc t).1.map (fun f => f ++ ['\n'])).flatten ++
        (List.foldl charStep acc t).2 =
      (acc.1.map (fun f => f ++ ['\n'])).flatten ++ acc.2 ++ t := by
  induction t generalizing acc with
  | nil => simp
  | cons c cs ih =>
      rw [List.foldl_cons, ih]
      by_cases hc : c = '\n'
      · subst hc
        simp [charStep, List.append_assoc]
      · simp [charStep, hc, List.append_assoc]

theorem foldl_charStep_frames_of_no_newline (t : List Char)
    (acc : List (List Char) × List Char) (ht : '\n' ∉ t) :
    (List.foldl charStep acc t).1 = acc.1 := by
  induction t generalizing acc with
  | nil => rfl
  | cons c cs ih =>
      have hc : c ≠ '\n' := fun h => ht (h ▸ List.mem_cons_self c cs)
      have ht2 : '\n' ∉ cs := fun h => ht (List.mem_cons_of_mem c h)
      rw [List.foldl_cons]
      rw [ih _ ht2]
      simp [charStep, hc]

theorem splitChunk_eq_foldl (chunk : List Char) (b : List Char) (hb : '\n' ∉ b)
    (fs : List (List Char)) :
    List.foldl charStep (fs, b) chunk =
      (fs ++ (splitChunk b chunk).1, (splitChunk b chunk).2) := by
  induction chunk generalizing b fs with
  | nil =>
      have h1 : splitLines b = [b] := by
        have h0 := splitLines_no_newline_append b [] hb
        simpa [splitLines] using h0
      show (fs, b) = _
      simp [splitChunk, h1]
  | cons c cs ih =>
      by_cases hc : c = '\n'
      · subst hc
        have hstep : List.foldl charStep (fs, b) ('\n' :: cs) =
            List.foldl charStep (fs ++ [b], []) cs := by
          simp [List.foldl_cons, charStep]
        rw [hstep, ih [] (by simp) (fs ++ [b])]
        have h2 : splitLines (b ++ '\n' :: cs) = b :: splitLines cs := by
          rw [splitLines_no_newline_append b ('\n' :: cs) hb]
          simp [splitLines]
        have hne := splitLines_ne_nil cs
        cases hsp : splitLines cs with
        | nil => exact absurd hsp hne
        | cons q qs =>
            have e1 : splitChunk ([] : List Char) cs =
                ((q :: qs).dropLast, (q :: qs).getLastD []) := by
              simp only [splitChunk, List.nil_append, hsp]
            have e2 : splitChunk b ('\n' :: cs) =
                ((b :: q :: qs).dropLast, (b :: q :: qs).getLastD []) := by
              simp only [splitChunk, h2, hsp]
            rw [e1, e2]
            simp [List.dropLast_cons₂, List.getLastD_cons, List.append_assoc]
      · have hstep : List.foldl charStep (fs, b) (c :: cs) =
            List.foldl charStep (fs, b ++ [c]) cs := by
          simp [List.foldl_cons, charStep, hc]
        have hb2 : '\n' ∉ b ++ [c] := by
          intro hm
          rcases List.mem_append.mp hm with h | h
          · exact hb h
          · simp at h
            exact hc h.symm
        rw [hstep, ih (b ++ [c]) hb2 fs]
        have hsc : splitChunk (b ++ [c]) cs = splitChunk b (c :: cs) := by
          unfold splitChunk
          rw [List.append_assoc]
          rfl
        rw [hsc]

theorem feedChunks_eq_foldl (cs : List (List Char)) (b : List Char) (hb : '\n' ∉ b)
    (fs : List (List Char)) :
    List.foldl charStep (fs, b) cs.flatten =
      (fs ++ (feedChunks b cs).1, (feedChunks b cs).2) := by
  induction cs generalizing b fs with
  | nil => simp [feedChunks]
  | cons c cs ih =>
      rw [List.flatten_cons, List.foldl_append charStep (fs, b) c cs.flatten]
      rw [splitChunk_eq_foldl c b hb fs]
      have hb2 : '\n' ∉ (splitChunk b c).2 := by
        have h1 := foldl_charStep_buffer_no_newline c (fs, b) hb
        rw [splitChunk_eq_foldl c b hb fs] at h1
        exact h1
      rw [ih (splitChunk b c).2 hb2 (fs ++ (splitChunk b c).1)]
      simp [feedChunks, List.append_assoc]

/-- Claim C5: the frames and final buffer produced by the read loop's buffer
splitting depend only on the concatenated stream text, not on how it is
fragmented into chunks. -/
theorem frame_split_chunk_invariance (cs1 cs2 : List (List Char))
    (h : cs1.flatten = cs2.flatten) :
    feedChunks [] cs1 = feedChunks [] cs2 := by
  have h1 := feedChunks_eq_foldl cs1 [] (by simp) []
  have h2 := feedChunks_eq_foldl cs2 [] (by simp) []
  rw [h] at h1
  rw [h1] at h2
  have h3 : ((feedChunks [] cs1).1, (feedChunks [] cs1).2) =
      ((feedChunks [] cs2).1, (feedChunks [] cs2).2) := by
    simpa using h2
  exact h3

/-- Witness for C5: two different fragmentations of `"ab\ncd\ne"` yield the
same frames and buffer. -/
theorem frame_split_chunk_invariance_witness :
    (["ab\nc".data, "d\ne".data] : List (List Char)).flatten =
        (["a".data, "b\ncd\ne".data] : List (List Char)).flatten ∧
      feedChunks [] ["ab\nc".data, "d\ne".data] =
        feedChunks [] ["a".data, "b\ncd\ne".data] :=
  ⟨by decide, frame_split_chunk_invariance _ _ (by decide)⟩

/-- Claim C9: the frames yielded by the read loop are exactly the newline-
terminated lines — the concatenation of the frames (each re-terminated
with a newline) followed by the final pending buffer reconstructs the
stream, and neither frames nor buffer contain a newline — and appending a
trailing chunk with no newline (an unterminated final line) yields no
additional frame, so its content never reaches the decoder. -/
theorem trailing_fragment_never_yielded :
    (∀ cs : List (List Char),
      ((feedChunks [] cs).1.map (fun f => f ++ ['\n'])).flatten ++
          (feedChunks [] cs).2 = cs.flatten ∧
        (∀ f ∈ (feedChunks [] cs).1, '\n' ∉ f) ∧
        '\n' ∉ (feedChunks [] cs).2) ∧
    (∀ (cs : List (List Char)) (rest : List Char), '\n' ∉ rest →
      (feedChunks [] (cs ++ [rest])).1 = (feedChunks [] cs).1) := by
  have hfold : ∀ cs : List (List Char),
      List.foldl charStep (([], []) : List (List Char) × List Char) cs.flatten =
        ((feedChunks [] cs).1, (feedChunks [] cs).2) := by
    intro cs
    have := feedChunks_eq_foldl cs [] (by simp) []
    simpa using this
  constructor
  · intro cs
    refine ⟨?_, ?_, ?_⟩
    · have := foldl_charStep_reconstruct cs.flatten (([], []) : List (List Char) × List Char)
      rw [hfold cs] at this
      simpa using this
    · have := foldl_charStep_frames_no_newline cs.flatten
        (([], []) : List (List Char) × List Char) (by simp) (by simp)
      rw [hfold cs] at this
      exact this
    · have := foldl_charStep_buffer_no_newline cs.flatten
        (([], []) : List (List Char) × List Char) (by simp)
      rw [hfold cs] at this
      exact this
  · intro cs rest hrest
    have h1 := hfold (cs ++ [rest])
    have h2 : (cs ++ [rest]).flatten = cs.flatten ++ rest := by
      rw [List.flatten_append]
      simp
    rw [h2, List.foldl_append charStep _ cs.flatten rest, hfold cs] at h1
    have h3 := foldl_charStep_frames_of_no_newline rest
      ((feedChunks [] cs).1, (feedChunks [] cs).2) hrest
    rw [h1] at h3
    exact h3

/-- Witness for C9 at a stream `"a\nbc"` whose final line is unterminated:
the frames reconstruct the stream, the retained buffer `"bc"` has no
newline, and appending a newline-free chunk adds no frame. -/
theorem trailing_fragment_never_yielded_witness :
    (((feedChunks [] ["a\nbc".data]).1.map (fun f => f ++ ['\n'])).flatten ++
        (feedChunks [] ["a\nbc".data]).2 =
          (["a\nbc".data] : List (List Char)).flatten) ∧
      '\n' ∉ (feedChunks [] ["a\nbc".data]).2 ∧
      (feedChunks [] (["a\n".data] ++ ["data: x".data])).1 =
        (feedChunks [] ["a\n".data]).1 :=
  ⟨(trailing_fragment_never_yielded.1 ["a\nbc".data]).1,
   (trailing_fragment_never_yielded.1 ["a\nbc".data]).2.2,
   trailing_fragment_never_yielded.2 ["a\n".data] "data: x".data (by decide)⟩

end Chat
